import Mathlib

/-!
# futureArp: the note-gate engine of `ImGuiPluginDSP::run`

A shallow embedding of the MIDI part of `ImGuiPluginDSP::run`
(`src/src/PluginDSP.cpp`): the event loop over the incoming batch (called
`ingest` below) followed by the scan over the 128 slots of `arpaggio`
(called `advance` below).

Modelling conventions.

* `float steps` and the two `float` parameters are exact rationals; the
  decrement `steps - 0.1` is `steps - 1/10`.
* Bytes (`uint8_t`) are natural numbers; `&` is `&&&` on `Nat`.
* `arpaggio` has exactly 128 slots, `Fin 128 → arpaggio_s`.  An index
  expression whose value is not below 128 is an access outside the array;
  the model then returns `none`.
* `writeMidiEvent` appends to the list of outgoing events.
-/

namespace FutureArp

/-- The host's MIDI event: `frame`, `size` and the four bytes of `data`. -/
structure MidiEvent where
  frame : Nat
  size : Nat
  data0 : Nat
  data1 : Nat
  data2 : Nat
  data3 : Nat
deriving DecidableEq

/-- One slot of `arpaggio[128]`. -/
structure arpaggio_s where
  steps : ℚ
  note_on : Bool
  midi_status : Nat
  midi_velocity : Nat
deriving DecidableEq

/-- The two parameters: `fParams[kParamRate]` and `fParams[KParamNoteLen]`. -/
structure Params where
  rate : ℚ
  noteLen : ℚ
deriving DecidableEq

/-- The array `arpaggio[128]`. -/
abbrev Arpaggio := Fin 128 → arpaggio_s

/-- The array after the constructor's `memset(arpaggio, 0, sizeof(arpaggio))`. -/
def initArpaggio : Arpaggio := fun _ => ⟨0, false, 0, 0⟩

/-- The parameters after the constructor: both are `1.0`. -/
def initParams : Params := ⟨1, 1⟩

/-- One iteration of the event loop of `run` (lines 204-234), for the event
`ev` at position `i` of the batch. -/
def ingestEvent (fParams : Params) (i : Nat) (ev : MidiEvent)
    (arpaggio : Arpaggio) (out : List MidiEvent) :
    Option (Arpaggio × List MidiEvent) :=
  if hn : ev.data1 < 128 then
    let note : Fin 128 := ⟨ev.data1, hn⟩
    let a1 : Arpaggio := Function.update arpaggio note
      { arpaggio note with midi_status := ev.data0, midi_velocity := ev.data2 }
    let a2 : Arpaggio :=
      if ev.data0 &&& 0xF0 = 0x90 then
        Function.update a1 note { a1 note with steps := 0, note_on := false }
      else a1
    if ev.data0 &&& 0xF0 = 0x80 then
      if hi : i < 128 then
        some (Function.update a2 ⟨i, hi⟩ { a2 ⟨i, hi⟩ with steps := fParams.rate },
              out ++ [ev])
      else none
    else some (a2, out)
  else none

/-- The event loop of `run`, from position `i` on. -/
def ingestLoop (fParams : Params) :
    Nat → List MidiEvent → Arpaggio → List MidiEvent → Option (Arpaggio × List MidiEvent)
  | _, [], arpaggio, out => some (arpaggio, out)
  | i, ev :: rest, arpaggio, out =>
    match ingestEvent fParams i ev arpaggio out with
    | none => none
    | some r => ingestLoop fParams (i + 1) rest r.1 r.2

/-- The whole event loop: `for (i = 0; i < midiEventCount; ++i)`. -/
def ingest (fParams : Params) (arpaggio : Arpaggio) (midiEvents : List MidiEvent) :
    Option (Arpaggio × List MidiEvent) :=
  ingestLoop fParams 0 midiEvents arpaggio []

/-- The body of the scan loop of `run` (lines 242-278) on slot `i`: the new
slot and the events written. -/
def scanSlot (fParams : Params) (i : Fin 128) (s : arpaggio_s) :
    arpaggio_s × List MidiEvent :=
  if s.midi_status &&& 0xF0 = 0x90 then
    if s.steps ≤ 0 ∧ s.note_on = false then
      ({ s with steps := fParams.rate, note_on := true },
        [⟨0, 3, s.midi_status, i.val, s.midi_velocity, 0⟩])
    else
      let s1 : arpaggio_s := { s with steps := s.steps - 1 / 10 }
      if s1.steps ≤ (1 - fParams.noteLen) * fParams.rate ∧ s1.note_on = true then
        ({ s1 with note_on := false },
          [⟨0, 3, s1.midi_status &&& 0xEF, i.val, s1.midi_velocity, 0⟩])
      else (s1, [])
  else (s, [])

/-- One iteration of the scan loop, on the state and the outgoing list. -/
def scanStep (fParams : Params) (acc : Arpaggio × List MidiEvent) (i : Fin 128) :
    Arpaggio × List MidiEvent :=
  (Function.update acc.1 i (scanSlot fParams i (acc.1 i)).1,
    acc.2 ++ (scanSlot fParams i (acc.1 i)).2)

/-- The scan loop `for (int i = 0; i < 128; i++)`, appending to `out`. -/
def scan (fParams : Params) (arpaggio : Arpaggio) (out : List MidiEvent) :
    Arpaggio × List MidiEvent :=
  (List.finRange 128).foldl (scanStep fParams) (arpaggio, out)

/-- One call of the scan on its own: the new array and the events it wrote. -/
def advance (fParams : Params) (arpaggio : Arpaggio) : Arpaggio × List MidiEvent :=
  scan fParams arpaggio []

/-- The MIDI part of `run`: the event loop, then the scan, writing to one
outgoing list. -/
def run (fParams : Params) (arpaggio : Arpaggio) (midiEvents : List MidiEvent) :
    Option (Arpaggio × List MidiEvent) :=
  match ingest fParams arpaggio midiEvents with
  | none => none
  | some r => some (scan fParams r.1 r.2)

/-- Consecutive scans, one per element of the list of parameter values, with
all the events they write. -/
def advanceSeq : List Params → Arpaggio → Arpaggio × List MidiEvent
  | [], arpaggio => (arpaggio, [])
  | p :: ps, arpaggio =>
    ((advanceSeq ps (advance p arpaggio).1).1,
      (advance p arpaggio).2 ++ (advanceSeq ps (advance p arpaggio).1).2)

/-- A call on the engine: the event loop on a batch, or the scan, each with
the parameter values current at the call. -/
inductive Op where
  | ingest (fParams : Params) (midiEvents : List MidiEvent)
  | advance (fParams : Params)

/-- The array after a sequence of calls. -/
def exec : Arpaggio → List Op → Option Arpaggio
  | arpaggio, [] => some arpaggio
  | arpaggio, Op.ingest p evs :: ops =>
    match ingest p arpaggio evs with
    | none => none
    | some r => exec r.1 ops
  | arpaggio, Op.advance p :: ops => exec (advance p arpaggio).1 ops

/-- Every slot with `note_on` set has a note-on status. -/
def GateInv (arpaggio : Arpaggio) : Prop :=
  ∀ i, (arpaggio i).note_on = true → (arpaggio i).midi_status &&& 0xF0 = 0x90

/-- Along the event loop from position `i` on, every event that is not a
note-on addresses a pitch whose `note_on` is false when the event is
processed. -/
def closedGateLoop (fParams : Params) :
    Nat → List MidiEvent → Arpaggio → List MidiEvent → Bool
  | _, [], _, _ => true
  | i, ev :: rest, arpaggio, out =>
    (decide (ev.data0 &&& 0xF0 = 0x90) ||
      (if h : ev.data1 < 128 then !(arpaggio ⟨ev.data1, h⟩).note_on else true)) &&
      (match ingestEvent fParams i ev arpaggio out with
        | none => true
        | some r => closedGateLoop fParams (i + 1) rest r.1 r.2)

/-- Along the sequence of calls, no event other than a note-on is processed
for a pitch whose `note_on` is set. -/
def gateSafe : Arpaggio → List Op → Bool
  | _, [] => true
  | arpaggio, Op.ingest p evs :: ops =>
    closedGateLoop p 0 evs arpaggio [] &&
      (match ingest p arpaggio evs with
        | none => true
        | some r => gateSafe r.1 ops)
  | arpaggio, Op.advance p :: ops => gateSafe (advance p arpaggio).1 ops

theorem scanSlot_data1 (p : Params) (i : Fin 128) (s : arpaggio_s) :
    ∀ e ∈ (scanSlot p i s).2, e.data1 = i.val := by
  intro e he
  simp only [scanSlot] at he
  split_ifs at he <;> simp at he <;> simp [he]

theorem scanSlot_filter (p : Params) (i P : Fin 128) (s : arpaggio_s) :
    (scanSlot p i s).2.filter (fun e => e.data1 = P.val)
      = if i = P then (scanSlot p i s).2 else [] := by
  split_ifs with h
  · subst h
    rw [List.filter_eq_self]
    intro e he
    simpa using scanSlot_data1 p i s e he
  · rw [List.filter_eq_nil_iff]
    intro e he
    have := scanSlot_data1 p i s e he
    simp only [decide_eq_true_eq]
    intro h2
    exact h (Fin.ext (this.symm.trans h2))

theorem foldl_scanStep_fst (p : Params) (l : List (Fin 128)) (hl : l.Nodup)
    (a : Arpaggio) (out : List MidiEvent) (j : Fin 128) :
    (l.foldl (scanStep p) (a, out)).1 j
      = if j ∈ l then (scanSlot p j (a j)).1 else a j := by
  induction l generalizing a out with
  | nil => simp
  | cons i l ih =>
    rw [List.nodup_cons] at hl
    rw [List.foldl_cons, scanStep, ih hl.2]
    by_cases hji : j = i
    · subst hji
      simp [hl.1]
    · simp [hji, Function.update_noteq hji]

theorem foldl_scanStep_snd (p : Params) (l : List (Fin 128)) (hl : l.Nodup)
    (a : Arpaggio) (out : List MidiEvent) (P : Fin 128) :
    ((l.foldl (scanStep p) (a, out)).2).filter (fun e => e.data1 = P.val)
      = out.filter (fun e => e.data1 = P.val)
        ++ if P ∈ l then (scanSlot p P (a P)).2 else [] := by
  induction l generalizing a out with
  | nil => simp
  | cons i l ih =>
    rw [List.nodup_cons] at hl
    rw [List.foldl_cons, scanStep, ih hl.2, List.filter_append, scanSlot_filter]
    by_cases hPi : P = i
    · subst hPi
      simp [hl.1]
    · have hiP : ¬ i = P := fun h => hPi h.symm
      simp [hPi, hiP, Function.update_noteq hPi]

/-- The scan acts on every slot by `scanSlot`. -/
theorem advance_slot (p : Params) (a : Arpaggio) (P : Fin 128) :
    (advance p a).1 P = (scanSlot p P (a P)).1 := by
  simp [advance, scan, foldl_scanStep_fst p _ (List.nodup_finRange 128), List.mem_finRange]

/-- The events of pitch `P` written by the scan are those of slot `P`. -/
theorem advance_events (p : Params) (a : Arpaggio) (P : Fin 128) :
    (advance p a).2.filter (fun e => e.data1 = P.val) = (scanSlot p P (a P)).2 := by
  simp [advance, scan, foldl_scanStep_snd p _ (List.nodup_finRange 128), List.mem_finRange]

theorem foldl_scanStep_append (p : Params) (l : List (Fin 128)) :
    ∀ (a : Arpaggio) (out : List MidiEvent),
      l.foldl (scanStep p) (a, out)
        = ((l.foldl (scanStep p) (a, [])).1, out ++ (l.foldl (scanStep p) (a, [])).2) := by
  induction l with
  | nil => intro a out; simp
  | cons i l ih =>
    intro a out
    simp only [List.foldl_cons, scanStep, List.nil_append]
    rw [ih _ (out ++ _), ih _ (scanSlot p i (a i)).2, List.append_assoc]

/-- The scan of `run`, which appends to the events forwarded by the event
loop, is the scan on its own with its events appended. -/
theorem run_eq (p : Params) (a : Arpaggio) (evs : List MidiEvent) :
    run p a evs
      = (ingest p a evs).map (fun r => ((advance p r.1).1, r.2 ++ (advance p r.1).2)) := by
  simp only [run, advance, scan]
  cases ingest p a evs with
  | none => rfl
  | some r =>
    simp only [Option.map_some']
    rw [foldl_scanStep_append]

/-! ## The event loop -/

/-- An event whose pitch byte is not below 128 indexes `arpaggio` outside
its 128 slots. -/
theorem ingestEvent_out_of_range (p : Params) (i : Nat) (ev : MidiEvent) (a : Arpaggio)
    (out : List MidiEvent) (hn : 128 ≤ ev.data1) : ingestEvent p i ev a out = none := by
  simp [ingestEvent, Nat.not_lt.mpr hn]

/-! ## The countdown bound -/

/-- The scan sets `note_on` only on a slot with a note-on status, and never
changes a status. -/
theorem scanSlot_gate (p : Params) (i : Fin 128) (s : arpaggio_s)
    (hs : s.note_on = true → s.midi_status &&& 0xF0 = 0x90) :
    (scanSlot p i s).1.note_on = true → (scanSlot p i s).1.midi_status &&& 0xF0 = 0x90 := by
  simp only [scanSlot]
  split_ifs with c1 c2 c3
  · exact fun _ => c1
  · exact fun _ => c1
  · exact fun _ => c1
  · exact hs

theorem advance_gate (p : Params) (a : Arpaggio) (ha : GateInv a) :
    GateInv (advance p a).1 := by
  intro i
  rw [advance_slot]
  exact scanSlot_gate p i (a i) (ha i)

theorem ingestEvent_gate (p : Params) (i : Nat) (ev : MidiEvent) (a : Arpaggio)
    (out : List MidiEvent) (r : Arpaggio × List MidiEvent) (ha : GateInv a)
    (hc : ev.data0 &&& 0xF0 = 0x90 ∨
      ∀ h : ev.data1 < 128, (a ⟨ev.data1, h⟩).note_on = false)
    (h : ingestEvent p i ev a out = some r) : GateInv r.1 := by
  simp only [ingestEvent] at h
  split_ifs at h <;> simp at h <;> subst h <;> intro j <;> have haj := ha j <;>
    simp only [Function.update_apply] <;> split_ifs <;> simp_all

theorem ingestLoop_gate (p : Params) (evs : List MidiEvent) :
    ∀ (i : Nat) (a : Arpaggio) (out : List MidiEvent) (r : Arpaggio × List MidiEvent),
      GateInv a → closedGateLoop p i evs a out = true → ingestLoop p i evs a out = some r →
      GateInv r.1 := by
  induction evs with
  | nil =>
    intro i a out r ha _ h
    simp [ingestLoop] at h
    simpa [← h] using ha
  | cons ev rest ih =>
    intro i a out r ha hc h
    simp only [ingestLoop] at h
    simp only [closedGateLoop, Bool.and_eq_true, Bool.or_eq_true, decide_eq_true_eq] at hc
    cases hev : ingestEvent p i ev a out with
    | none => simp [hev] at h
    | some r1 =>
      simp only [hev] at h hc
      obtain ⟨hc1, hc2⟩ := hc
      refine ih _ _ _ _ (ingestEvent_gate p i ev a out r1 ha ?_ hev) hc2 h
      rcases hc1 with hc1 | hc1
      · exact Or.inl hc1
      · refine Or.inr (fun hlt => ?_)
        simpa [hlt] using hc1

theorem exec_gate (ops : List Op) :
    ∀ a a' : Arpaggio, GateInv a → gateSafe a ops = true → exec a ops = some a' →
      GateInv a' := by
  induction ops with
  | nil =>
    intro a a' ha _ h
    simp only [exec, Option.some.injEq] at h
    exact h ▸ ha
  | cons op ops ih =>
    intro a a' ha hs h
    cases op with
    | ingest p evs =>
      simp only [gateSafe, Bool.and_eq_true] at hs
      simp only [exec] at h
      cases hi : ingest p a evs with
      | none => simp [hi] at h
      | some r =>
        simp only [hi] at h hs
        exact ih r.1 a' (ingestLoop_gate p evs 0 a [] r ha hs.1 hi) hs.2 h
    | advance p =>
      simp only [gateSafe] at hs
      simp only [exec] at h
      exact ih _ a' (advance_gate p a ha) hs h

theorem initArpaggio_gate : GateInv initArpaggio := by
  intro i
  simp [initArpaggio]

/-! ## The retrigger cycle of one slot -/

/-- C1: a note-off for pitch 40 at position 0 of the batch, with rate 1 on
the zeroed array: the loop re-arms `arpaggio[0]` (the position) and leaves
the countdown of slot 40 at 0, not at the rate. -/
theorem note_off_rearms_batch_position :
    (ingest initParams initArpaggio [⟨0, 3, 0x80, 40, 0, 0⟩]).map
        (fun r => ((r.1 40).steps, (r.1 0).steps))
      = some (0, 1) := by
  decide

/-- C2: the batch "note-on for pitch 1, note-off for pitch 5" with rate 1 on
the zeroed array: the last event addressed to pitch 1 is a note-on, and
after the loop slot 1 has countdown 1 (the rate), written by the note-off
at position 1, while `note_on` is false. -/
theorem note_on_arming_overwritten_by_position :
    (ingest initParams initArpaggio
        [⟨0, 3, 0x90, 1, 100, 0⟩, ⟨0, 3, 0x80, 5, 0, 0⟩]).map
        (fun r => ((r.1 1).steps, (r.1 1).note_on))
      = some (1, false) := by
  decide

/-- C3: an event with pitch byte 200 is not discarded: the loop indexes
`arpaggio[200]`, outside the 128 slots. -/
theorem out_of_range_pitch_not_discarded :
    ingest initParams initArpaggio [⟨0, 3, 0x90, 200, 100, 0⟩] = none := by
  decide

/-- C5 (P2): on an armed slot `P` (note-on status, countdown 0, `note_on`
false) one scan writes exactly one event with pitch byte `P`, the 3-byte
event of the slot's status and velocity, and leaves the slot with `note_on`
set and the countdown at the rate, its status and velocity unchanged. -/
theorem armed_slot_fires_immediately (p : Params) (a : Arpaggio) (P : Fin 128)
    (hs : (a P).midi_status &&& 0xF0 = 0x90) (h0 : (a P).steps = 0)
    (hg : (a P).note_on = false) :
    (advance p a).2.filter (fun e => e.data1 = P.val)
        = [⟨0, 3, (a P).midi_status, P.val, (a P).midi_velocity, 0⟩] ∧
      (advance p a).1 P
        = ⟨p.rate, true, (a P).midi_status, (a P).midi_velocity⟩ := by
  rw [advance_events, advance_slot]
  simp [scanSlot, hs, h0, hg]

/-- C5 at pitch 60 armed by a note-on of velocity 100, rate 2 and note
length 1/2. -/
theorem armed_slot_fires_immediately_witness :
    (advance ⟨2, 1 / 2⟩ (Function.update initArpaggio 60 ⟨0, false, 0x90, 100⟩)).2.filter
        (fun e => e.data1 = 60)
        = [⟨0, 3, 0x90, 60, 100, 0⟩] ∧
      (advance ⟨2, 1 / 2⟩ (Function.update initArpaggio 60 ⟨0, false, 0x90, 100⟩)).1 60
        = ⟨2, true, 0x90, 100⟩ :=
  armed_slot_fires_immediately ⟨2, 1 / 2⟩
    (Function.update initArpaggio 60 ⟨0, false, 0x90, 100⟩) 60
    (by decide) (by decide) (by decide)

/-- C8 (P4): a slot `P` whose status is not a note-on is left unchanged by
any number of consecutive scans, whatever the parameters at each of them,
and none of the events they write has pitch byte `P`. -/
theorem inert_slot_unchanged (ps : List Params) (a : Arpaggio) (P : Fin 128)
    (hs : (a P).midi_status &&& 0xF0 ≠ 0x90) :
    (advanceSeq ps a).1 P = a P ∧
      (advanceSeq ps a).2.filter (fun e => e.data1 = P.val) = [] := by
  induction ps generalizing a with
  | nil => simp [advanceSeq]
  | cons p ps ih =>
    have h1 : (advance p a).1 P = a P := by
      rw [advance_slot]; simp [scanSlot, hs]
    have h2 : (advance p a).2.filter (fun e => e.data1 = P.val) = [] := by
      rw [advance_events]; simp [scanSlot, hs]
    have ih' := ih (advance p a).1 (by rw [h1]; exact hs)
    simp only [advanceSeq, List.filter_append, h2, ih'.2, List.append_nil]
    exact ⟨ih'.1.trans h1, trivial⟩

/-- C8 at pitch 60 released by a note-off while its gate was open: three
scans with different parameters leave the slot as it is and write nothing
for pitch 60. -/
theorem inert_slot_unchanged_witness :
    (advanceSeq [⟨1, 1⟩, ⟨2, 1 / 2⟩, ⟨0, 1⟩]
        (Function.update initArpaggio 60 ⟨3 / 10, true, 0x80, 0⟩)).1 60
        = (Function.update initArpaggio 60 ⟨3 / 10, true, 0x80, 0⟩) 60 ∧
      (advanceSeq [⟨1, 1⟩, ⟨2, 1 / 2⟩, ⟨0, 1⟩]
        (Function.update initArpaggio 60 ⟨3 / 10, true, 0x80, 0⟩)).2.filter
        (fun e => e.data1 = 60) = [] :=
  inert_slot_unchanged [⟨1, 1⟩, ⟨2, 1 / 2⟩, ⟨0, 1⟩]
    (Function.update initArpaggio 60 ⟨3 / 10, true, 0x80, 0⟩) 60 (by decide)

/-- C9, as stated, on the calls "note-on for pitch 60, scan, note-off for
pitch 60" from the zeroed array: slot 60 ends with `note_on` set and a
note-off status. -/
theorem open_gate_with_note_off_status :
    (exec initArpaggio
        [Op.ingest initParams [⟨0, 3, 0x90, 60, 100, 0⟩], Op.advance initParams,
          Op.ingest initParams [⟨0, 3, 0x80, 60, 0, 0⟩]]).map
        (fun a => ((a 60).note_on, (a 60).midi_status &&& 0xF0))
      = some (true, 0x80) := by
  decide

/-- C9, amended: in every array reached from the zeroed one by scans and by
event loops in which every event that is not a note-on addresses a pitch
whose `note_on` is false when the event is processed, every slot with
`note_on` set has a note-on status. -/
theorem gate_open_implies_note_on_status (ops : List Op) (a : Arpaggio)
    (hs : gateSafe initArpaggio ops = true) (h : exec initArpaggio ops = some a) :
    GateInv a :=
  exec_gate ops initArpaggio a initArpaggio_gate hs h

/-- C9 amended, on the calls "note-on 60, scan, then note-on 61 and note-off
62 in one batch": the note-off addresses a pitch whose gate is closed, and
slot 60 keeps its open gate and its note-on status. -/
theorem gate_open_implies_note_on_status_witness :
    ∃ a, exec initArpaggio
        [Op.ingest initParams [⟨0, 3, 0x90, 60, 100, 0⟩], Op.advance initParams,
          Op.ingest initParams [⟨0, 3, 0x90, 61, 90, 0⟩, ⟨1, 3, 0x80, 62, 0, 0⟩]]
        = some a ∧ (a 60).note_on = true ∧ GateInv a := by
  have hsome : (exec initArpaggio
      [Op.ingest initParams [⟨0, 3, 0x90, 60, 100, 0⟩], Op.advance initParams,
        Op.ingest initParams [⟨0, 3, 0x90, 61, 90, 0⟩, ⟨1, 3, 0x80, 62, 0, 0⟩]]).isSome
      = true := by decide
  obtain ⟨a, ha⟩ := Option.isSome_iff_exists.mp hsome
  refine ⟨a, ha, ?_, gate_open_implies_note_on_status _ a (by decide) ha⟩
  have hg : (exec initArpaggio
      [Op.ingest initParams [⟨0, 3, 0x90, 60, 100, 0⟩], Op.advance initParams,
        Op.ingest initParams [⟨0, 3, 0x90, 61, 90, 0⟩, ⟨1, 3, 0x80, 62, 0, 0⟩]]).map
      (fun a => (a 60).note_on) = some true := by decide
  rw [ha] at hg
  simpa using hg

end FutureArp
